import Mathlib

/-
Verification development for the java-class-diagram-view core:
a shallow embedding of src/parser/JavaCodeParser.ts and
src/plantuml/PlantUMLGenerator.ts.  External collaborators
(the structured-parse subprocess, javap, the filesystem) are modelled
as oracles in an `Env` record; JavaScript string primitives are
modelled over `List Char`.
-/

namespace JavaDiagram

/-! ## JavaScript string primitives -/

/-- Model of JS `String.prototype.split` with a non-empty separator:
repeatedly cut at the first occurrence of the separator. -/
def jsSplitCore (sep : List Char) : Nat → List Char → List Char → List String
  | 0, _, acc => [String.mk acc.reverse]
  | _ + 1, [], acc => [String.mk acc.reverse]
  | f + 1, c :: cs, acc =>
    if sep.isPrefixOf (c :: cs) then
      String.mk acc.reverse :: jsSplitCore sep f (List.drop sep.length (c :: cs)) []
    else
      jsSplitCore sep f cs (c :: acc)

/-- Model of JS `s.split(sep)` (no limit argument).  `split("")` splits
into single characters, as in JS. -/
def jsSplit (s sep : String) : List String :=
  if sep = "" then s.toList.map (fun c => String.mk [c])
  else jsSplitCore sep.toList (s.toList.length + 1) s.toList []

/-- Substring occurrence test on character lists. -/
def listIsSubstr (pat : List Char) : List Char → Bool
  | [] => pat.isEmpty
  | c :: cs => List.isPrefixOf pat (c :: cs) || listIsSubstr pat cs

/-- Model of JS `s.includes(pat)`: substring test. -/
def jsIncludes (s pat : String) : Bool :=
  listIsSubstr pat.toList s.toList

/-- Model of JS `s.startsWith(pat)`. -/
def jsStartsWith (s pat : String) : Bool :=
  List.isPrefixOf pat.toList s.toList

/-- Model of JS `s.endsWith(pat)`. -/
def jsEndsWith (s pat : String) : Bool :=
  List.isPrefixOf pat.toList.reverse s.toList.reverse

/-- Model of JS `s.trim()`: strip whitespace from both ends. -/
def jsTrim (s : String) : String :=
  String.mk (((s.toList.dropWhile Char.isWhitespace).reverse.dropWhile
    Char.isWhitespace).reverse)

/-! ## Data model (the TS interfaces of JavaCodeParser.ts) -/

structure ParameterInfo where
  name : String
  type : String
deriving DecidableEq, Repr

structure FieldInfo where
  name : String
  type : String
  modifiers : List String
  annotations : List String
deriving DecidableEq, Repr

structure MethodInfo where
  name : String
  returnType : String
  parameters : List ParameterInfo
  modifiers : List String
  annotations : List String
deriving DecidableEq, Repr

/-- The ClassInfo interface.  `parentClass` is an optional recursive
reference, so this is an inductive type rather than a structure.
Optional TS fields are `Option`s. -/
inductive ClassInfo where
  | mk (name : String) (fields : List FieldInfo) (methods : List MethodInfo)
       (modifiers : List String) (annotations : List String)
       (extends_ : Option String) (implements_ : Option (List String))
       (packageName : Option String) (filePath : Option String)
       (parentClass : Option ClassInfo)

def ClassInfo.name : ClassInfo → String
  | .mk n _ _ _ _ _ _ _ _ _ => n

def ClassInfo.fields : ClassInfo → List FieldInfo
  | .mk _ f _ _ _ _ _ _ _ _ => f

def ClassInfo.methods : ClassInfo → List MethodInfo
  | .mk _ _ m _ _ _ _ _ _ _ => m

def ClassInfo.modifiers : ClassInfo → List String
  | .mk _ _ _ md _ _ _ _ _ _ => md

def ClassInfo.annotations : ClassInfo → List String
  | .mk _ _ _ _ an _ _ _ _ _ => an

def ClassInfo.extends_ : ClassInfo → Option String
  | .mk _ _ _ _ _ ex _ _ _ _ => ex

def ClassInfo.implements_ : ClassInfo → Option (List String)
  | .mk _ _ _ _ _ _ im _ _ _ => im

def ClassInfo.packageName : ClassInfo → Option String
  | .mk _ _ _ _ _ _ _ pk _ _ => pk

def ClassInfo.filePath : ClassInfo → Option String
  | .mk _ _ _ _ _ _ _ _ fp _ => fp

def ClassInfo.parentClass : ClassInfo → Option ClassInfo
  | .mk _ _ _ _ _ _ _ _ _ p => p

/-- Replace the `parentClass` field (models the TS assignment
`classInfo.parentClass = ...`). -/
def ClassInfo.withParent : ClassInfo → Option ClassInfo → ClassInfo
  | .mk n f m md an ex im pk fp _, p => .mk n f m md an ex im pk fp p

/-- Replace the `extends` field (models `classInfo.extends = ...`). -/
def ClassInfo.withExtends : ClassInfo → String → ClassInfo
  | .mk n f m md an _ im pk fp p, e => .mk n f m md an (some e) im pk fp p

/-- JS truthiness of an optional string: `undefined` and `""` are falsy. -/
def optStr : Option String → Option String
  | some s => if s = "" then none else some s
  | none => none

/-! ## A small backtracking matcher for the two JS regexes of the parser

The TS code uses two regex literals:
class line: `(?:public |abstract |final )*class\s+([\w.$]+)\s+extends\s+([\w.$]+)`
field line: `(?:public |protected |private |static |final |volatile |transient )*(?:[\w.<>]+)\s+([\w<>]+)\s+([\w]+)`
Both are sequences of: a star over literal alternatives, literals,
`\s+`, and one-or-more character classes (possibly capturing).  The
matcher below implements JS semantics for exactly these constructs:
leftmost match, greedy quantifiers with backtracking, alternatives
tried left to right. -/

/-- One element of a regex sequence. -/
inductive Pat where
  | lit (s : List Char)
  | ws1
  | plusCls (grp : Option Nat) (p : Char → Bool)
  | starWords (ws : List (List Char))

/-- All ways to split off a non-empty run of `p`-characters from the
front, longest (greedy) first.  Each entry is (consumed, rest). -/
def plusSplits (p : Char → Bool) (l : List Char) : List (List Char × List Char) :=
  let n := (l.takeWhile p).length
  (List.range n).map (fun i => (l.take (n - i), l.drop (n - i)))

/-- All rests reachable by consuming words of `ws` zero or more times,
in JS backtracking order (another iteration preferred over stopping,
alternatives in list order).  Fuel bounds the recursion. -/
def starRests (ws : List (List Char)) : Nat → List Char → List (List Char)
  | 0, l => [l]
  | f + 1, l =>
    ((ws.filterMap (fun w =>
        if w ≠ [] && List.isPrefixOf w l then
          some (starRests ws f (List.drop w.length l))
        else none)).flatten) ++ [l]

/-- Captured groups: association list from group index to text. -/
abbrev Caps := List (Nat × String)

/-- Match a pattern sequence at the start of the input, returning all
(rest, captures) outcomes in JS backtracking priority order. -/
def matchPats : List Pat → List Char → List (List Char × Caps)
  | [], l => [(l, [])]
  | .lit s :: ps, l =>
    if List.isPrefixOf s l then matchPats ps (List.drop s.length l) else []
  | .ws1 :: ps, l =>
    (plusSplits Char.isWhitespace l).flatMap (fun sp => matchPats ps sp.2)
  | .plusCls g p :: ps, l =>
    (plusSplits p l).flatMap (fun sp =>
      (matchPats ps sp.2).map (fun rc =>
        (rc.1, match g with
               | some i => (i, String.mk sp.1) :: rc.2
               | none => rc.2)))
  | .starWords ws :: ps, l =>
    (starRests ws (l.length + 1) l).flatMap (fun rest => matchPats ps rest)

/-- Model of JS `line.match(re)` for the patterns above: try each start
position left to right, return the captures of the first match. -/
def searchPats (pats : List Pat) : List Char → Option Caps
  | [] =>
    match matchPats pats [] with
    | rc :: _ => some rc.2
    | [] => none
  | c :: cs =>
    match matchPats pats (c :: cs) with
    | rc :: _ => some rc.2
    | [] => searchPats pats cs

/-- Look up a captured group (JS `m[i]` for a group that always
participates in a successful match). -/
def capGet (caps : Caps) (i : Nat) : String :=
  match caps.find? (fun c => c.1 = i) with
  | some c => c.2
  | none => ""

/-- Character class `[\w.$]` (JS `\w` is ASCII letters, digits, `_`). -/
def isWordDotDollar (c : Char) : Bool :=
  c.isAlphanum || c = '_' || c = '.' || c = '$'

/-- Character class `[\w.<>]`. -/
def isWordDotAngle (c : Char) : Bool :=
  c.isAlphanum || c = '_' || c = '.' || c = '<' || c = '>'

/-- Character class `[\w<>]`. -/
def isWordAngle (c : Char) : Bool :=
  c.isAlphanum || c = '_' || c = '<' || c = '>'

/-- Character class `[\w]`. -/
def isWord (c : Char) : Bool :=
  c.isAlphanum || c = '_'

/-- The class-declaration regex of `parseJavapOutput`. -/
def classPat : List Pat :=
  [ .starWords ["public ".toList, "abstract ".toList, "final ".toList],
    .lit "class".toList, .ws1, .plusCls (some 1) isWordDotDollar,
    .ws1, .lit "extends".toList, .ws1, .plusCls (some 2) isWordDotDollar ]

/-- The field-declaration regex of `parseJavapField`. -/
def fieldPat : List Pat :=
  [ .starWords ["public ".toList, "protected ".toList, "private ".toList,
                "static ".toList, "final ".toList, "volatile ".toList,
                "transient ".toList],
    .plusCls none isWordDotAngle, .ws1, .plusCls (some 1) isWordAngle,
    .ws1, .plusCls (some 2) isWord ]

/-- Model of JS `line.match(/^\d+:/) !== null`. -/
def startsNumColon (s : String) : Bool :=
  let ds := s.toList.takeWhile Char.isDigit
  decide (ds ≠ []) && ((s.toList.drop ds.length).headD ' ' = ':')

/-! ## JavaCodeParser: javap-output parsing -/

namespace JavaCodeParser

/-- The record returned from the `catch` arm of `parseJavapMethod`. -/
def emptyMethod : MethodInfo :=
  { name := "", returnType := "", parameters := [], modifiers := [], annotations := [] }

/-- `JavaCodeParser.parseParameters` (lines 361-373): split the text
between the parentheses at commas; parameter names are always empty. -/
def parseParameters (paramString : String) : List ParameterInfo :=
  if jsTrim paramString = "" then []
  else (jsSplit paramString ",").map (fun param => { name := "", type := jsTrim param })

/-- `JavaCodeParser.extractClassName` (lines 350-359): last dot-component
of the first space-separated token that contains a dot. -/
def extractClassName (line : String) : String :=
  let parts := jsSplit line " "
  match parts.find? (fun part => jsIncludes part ".") with
  | some part => (jsSplit part ".").getLastD ""
  | none => ""

/-- `JavaCodeParser.parseJavapMethod` (lines 292-348).  JS array `pop`
is modelled by `getLastD`/`dropLast`; indexing `[1]` into a split that
may have a single element throws a TypeError in JS when the result is
used, which the surrounding `catch` turns into `emptyMethod`. -/
def parseJavapMethod (line : String) : MethodInfo :=
  let isConstructor := jsIncludes line (extractClassName line ++ "(")
  let mods0 := jsSplit (jsTrim ((jsSplit line "(").headD "")) " "
  let modifiers1 := mods0.dropLast
  if isConstructor then
    let classNameWithPackage := modifiers1.getLastD ""
    let modifiers2 := modifiers1.dropLast
    let className := (jsSplit classNameWithPackage ".").getLastD ""
    match (jsSplit line "(").get? 1 with
    | none => emptyMethod
    | some s1 =>
      let paramString := (jsSplit s1 ")").headD ""
      { name := className, returnType := "",
        parameters := parseParameters paramString,
        modifiers := modifiers2, annotations := [] }
  else
    let returnType := modifiers1.getLastD ""
    let modifiers2 := modifiers1.dropLast
    match (jsSplit line returnType).get? 1 with
    | none => emptyMethod
    | some seg =>
      let methodName := jsTrim ((jsSplit (jsTrim seg) "(").headD "")
      match (jsSplit line "(").get? 1 with
      | none => emptyMethod
      | some s1 =>
        let paramString := (jsSplit s1 ")").headD ""
        { name := methodName, returnType := returnType,
          parameters := parseParameters paramString,
          modifiers := modifiers2, annotations := [] }

/-- `JavaCodeParser.parseJavapField` (lines 375-391). -/
def parseJavapField (line : String) : FieldInfo :=
  match searchPats fieldPat line.toList with
  | some caps =>
    { name := capGet caps 2, type := capGet caps 1,
      modifiers := (jsSplit (jsTrim ((jsSplit line (capGet caps 1)).headD "")) " ").filter
        (fun m => m ≠ ""),
      annotations := [] }
  | none => { name := "", type := "", modifiers := [], annotations := [] }

/-- Accumulator of the `lines.forEach` loop in `parseJavapOutput`. -/
structure JOState where
  modifiers : List String
  extends_ : Option String
  fields : List FieldInfo
  methods : List MethodInfo
  inCodeBlock : Bool

/-- One iteration of the `lines.forEach` body of `parseJavapOutput`
(lines 240-287).  The dead store `currentMethod = method` has no
observable effect and is not modelled. -/
def javapLineStep (isSystemClass : Bool) (st : JOState) (rawLine : String) : JOState :=
  let line := jsTrim rawLine
  if line = "" || line = "Code:" then { st with inCodeBlock := line = "Code:" }
  else if st.inCodeBlock && (startsNumColon line || jsStartsWith line "/") then st
  else if jsIncludes line "class" then
    match searchPats classPat line.toList with
    | some caps =>
      { st with
        modifiers := (jsSplit (jsTrim ((jsSplit line "class").headD "")) " ").filter
          (fun m => m ≠ ""),
        extends_ := some (capGet caps 2) }
    | none => st
  else if isSystemClass then st
  else if jsStartsWith line "public" || jsStartsWith line "protected" ||
          jsStartsWith line "private" || jsStartsWith line "static" then
    if jsIncludes line "(" then
      let method := parseJavapMethod line
      if method.name ≠ "" then { st with methods := st.methods ++ [method] } else st
    else
      let field := parseJavapField line
      if field.name ≠ "" then { st with fields := st.fields ++ [field] } else st
  else st

/-- JS `s.substring(0, s.lastIndexOf('.'))`: the text before the last
dot, or `""` when there is no dot. -/
def beforeLastDot (s : String) : String :=
  if jsIncludes s "." then String.intercalate "." ((jsSplit s ".").dropLast) else ""

/-- `JavaCodeParser.parseJavapOutput` (lines 222-290). -/
def parseJavapOutput (output fullClassName : String) : ClassInfo :=
  let isSystemClass :=
    jsStartsWith fullClassName "java." || jsStartsWith fullClassName "javax."
  let lines := jsSplit output "\n"
  let st := lines.foldl (javapLineStep isSystemClass)
    { modifiers := [], extends_ := none, fields := [], methods := [], inCodeBlock := false }
  .mk ((jsSplit fullClassName ".").getLastD "") st.fields st.methods st.modifiers []
    st.extends_ none (some (beforeLastDot fullClassName)) none none

end JavaCodeParser

/-! ## JavaCodeParser: ancestor resolution (`parse`, lines 50-193)

External collaborators are oracles:
`parseClassO` is the structured-parse subprocess of `parseClass`
(its JSON record carries `name, modifiers, annotations, extends,
implements, fields, methods` and nothing else; a rejection carries an
error message); `javap` returns the stdout of `javap -c <name>` or
`none` when the invocation fails; `fileO` returns the text of a file
path or `none` (covering both a missing file and a caught read error).
Divergence of the unbounded ancestor loop is modelled with fuel: a
result of `none` at the top level means the computation did not
terminate within the given fuel. -/

/-- The structured-parse collaborator record (the JSON printed by the
embedded `Parser.java`). -/
structure SrcClass where
  name : String
  modifiers : List String
  annotations : List String
  extends_ : Option String
  implements_ : List String
  fields : List FieldInfo
  methods : List MethodInfo

/-- The three external collaborators. -/
structure Env where
  parseClassO : String → Except String SrcClass
  javap : String → Option String
  fileO : String → Option String

/-- Model of node `path.dirname`. -/
def dirname (p : String) : String :=
  if jsIncludes p "/" then String.intercalate "/" ((jsSplit p "/").dropLast) else "."

/-- Model of node `path.join` for the two-argument uses in `parse`. -/
def pathJoin (a b : String) : String := a ++ "/" ++ b

/-- Conversion of a structured-parse record into a `ClassInfo`, as done
by `parseClass` + the `filePath` assignment at the top of `parse`.
The collaborator's record has no `packageName`, `filePath` or
`parentClass`, so those start out absent. -/
def srcToClassInfo (s : SrcClass) (filePath : Option String) : ClassInfo :=
  .mk s.name s.fields s.methods s.modifiers s.annotations s.extends_
    (some s.implements_) none filePath none

/-- `JavaCodeParser.findProjectClass` (lines 198-217): without a current
file path there is no lookup; otherwise read the sibling file named
after the class (read errors are caught and become `undefined`). -/
def findProjectClass (env : Env) (className : String)
    (packageName : Option String) (currentFilePath : Option String) : Option String :=
  match currentFilePath with
  | none => none
  | some fp => env.fileO (pathJoin (dirname fp) (className ++ ".java"))

/-- The `commonPackages` list (lines 75-90). -/
def commonPackages : List String :=
  ["", "java.lang.", "java.util.", "java.io.", "java.applet.",
   "javax.swing.", "java.awt.", "java.net.", "java.sql.",
   "javax.servlet.", "java.math.", "java.security.", "java.text.",
   "java.time."]

/-- The `simpleClassName` computation before the fallback loop
(lines 124-126). -/
def simpleNameOf (ext : String) : String :=
  if jsIncludes ext "." then
    let s := (jsSplit ext ".").getLastD ""
    if s = "" then ext else s
  else ext

/-- Result of one stage of the system-resolver fallback; `attempts`
records the class names passed to `javap` in order, and `winner` the
candidate whose resolution succeeded (bookkeeping for the theorems,
not state of the original code). -/
structure FBOut where
  found : Bool
  extends_ : String
  parent : Option ClassInfo
  attempts : List String
  winner : Option String

/-- The candidate `classNameToTry` built in the loop body
(lines 136-141). -/
def loopCand (pkg simple ext : String) : String :=
  if pkg ≠ "" then pkg ++ simple else ext

/-- The common-packages loop of the fallback (lines 128-155): skip the
empty prefix when the name already contains a package, resolve the
first candidate that `javap` accepts, rewrite `extends` to it and stop. -/
def fbLoop (env : Env) (ext simple : String) : List String → FBOut
  | [] => ⟨false, ext, none, [], none⟩
  | pkg :: rest =>
    if jsIncludes ext "." && pkg = "" then fbLoop env ext simple rest
    else
      match env.javap (loopCand pkg simple ext) with
      | some out =>
        ⟨true, loopCand pkg simple ext,
         some (JavaCodeParser.parseJavapOutput out (loopCand pkg simple ext)),
         [loopCand pkg simple ext], some (loopCand pkg simple ext)⟩
      | none =>
        let r := fbLoop env ext simple rest
        ⟨r.found, r.extends_, r.parent, loopCand pkg simple ext :: r.attempts, r.winner⟩

/-- The `Applet` special case of the fallback (lines 97-108): rewrite
`extends` to `java.applet.Applet` on success. -/
def appletStage (env : Env) (ext : String) : FBOut :=
  if ext = "Applet" then
    match env.javap "java.applet.Applet" with
    | some out =>
      ⟨true, "java.applet.Applet",
       some (JavaCodeParser.parseJavapOutput out "java.applet.Applet"),
       ["java.applet.Applet"], some "java.applet.Applet"⟩
    | none => ⟨false, ext, none, ["java.applet.Applet"], none⟩
  else ⟨false, ext, none, [], none⟩

/-- The direct attempt on a name already containing a package
(lines 110-119).  It runs even when the `Applet` stage already
succeeded, and it does not rewrite `extends`. -/
def directStage (env : Env) (fullClassName : String) (a : FBOut) : FBOut :=
  if jsIncludes fullClassName "." then
    match env.javap fullClassName with
    | some out =>
      ⟨true, a.extends_,
       some (JavaCodeParser.parseJavapOutput out fullClassName),
       a.attempts ++ [fullClassName], some fullClassName⟩
    | none => ⟨a.found, a.extends_, a.parent, a.attempts ++ [fullClassName], a.winner⟩
  else a

/-- The system-resolver fallback of `parse` (lines 67-160): the special
`Applet` case, then the direct attempt on the package-qualified name,
then the common-packages loop (entered only if nothing succeeded). -/
def sysFallback (env : Env) (ext : String) (pkg : Option String) : FBOut :=
  let fullClassName := match pkg with | some p => p ++ "." ++ ext | none => ext
  let b := directStage env fullClassName (appletStage env ext)
  if b.found then b
  else
    let r := fbLoop env ext (simpleNameOf ext) commonPackages
    ⟨r.found, r.extends_, r.parent, b.attempts ++ r.attempts, r.winner⟩

/-- The system-ancestor `while` loop of `parse` (lines 168-181), which
walks `extends` links until the name is empty or `java.lang.Object`, or
a `javap` invocation fails (`break`).  The loop has no depth bound, so
it is modelled with fuel; `none` means the loop did not terminate
within `fuel` iterations.  `some c` is the chain to attach below the
loop's starting descriptor. -/
def buildChain (env : Env) : Nat → String → Option (Option ClassInfo)
  | 0, name =>
    if name = "" || name = "java.lang.Object" then some none else none
  | fuel + 1, name =>
    if name = "" || name = "java.lang.Object" then some none
    else
      match env.javap name with
      | none => some none
      | some out =>
        let p := JavaCodeParser.parseJavapOutput out name
        match buildChain env fuel (p.extends_.getD "") with
        | none => none
        | some sub => some (some (p.withParent sub))

/-- The whole system-resolution branch of `parse` (lines 66-186):
fallback, then — when an ancestor was found — the recursive walk over
its own `extends`.  The `throw` on fallback exhaustion is absorbed by
the `catch` at line 183, leaving the descriptor unchanged. -/
def resolveAncestors (env : Env) (fuel : Nat) (ci : ClassInfo) (ext : String) :
    Option ClassInfo :=
  let fb := sysFallback env ext ci.packageName
  if fb.found then
    match fb.parent with
    | none => some (ci.withExtends fb.extends_)
    | some p =>
      match optStr p.extends_ with
      | none => some ((ci.withExtends fb.extends_).withParent (some p))
      | some pext =>
        match buildChain env fuel pext with
        | none => none
        | some sub =>
          some ((ci.withExtends fb.extends_).withParent (some (p.withParent sub)))
  else some ci

/-- `JavaCodeParser.parse` (lines 50-193).  The outer value is `none`
when the computation runs out of fuel (models divergence); otherwise
`some (Except.error e)` is a rejected promise and `some (Except.ok c)`
a resolved one. -/
def parse (env : Env) : Nat → String → Option String → Option (Except String ClassInfo)
  | 0, _, _ => none
  | fuel + 1, javaCode, filePath =>
    match env.parseClassO javaCode with
    | .error e => some (.error e)
    | .ok src =>
      let ci := srcToClassInfo src filePath
      match optStr ci.extends_ with
      | none => some (.ok ci)
      | some ext =>
        match findProjectClass env ext ci.packageName filePath with
        | some parentCode =>
          match parse env fuel parentCode
              (some (pathJoin (dirname (filePath.getD "")) (ext ++ ".java"))) with
          | none => none
          | some (.ok p) => some (.ok (ci.withParent (some p)))
          | some (.error _) => some (.ok ci)
        | none =>
          match resolveAncestors env fuel ci ext with
          | none => none
          | some ci2 => some (.ok ci2)

/-! ## PlantUMLGenerator (src/plantuml/PlantUMLGenerator.ts)

The static `processedClasses : Set<string>` is modelled by explicit
state passing: a `List String` with membership for `has` and append
for `add`. -/

namespace PlantUMLGenerator

/-- `PlantUMLGenerator.getSimpleClassName` (lines 111-114). -/
def getSimpleClassName (className : String) : String :=
  if jsIncludes className "." then (jsSplit className ".").getLastD "" else className

/-- `PlantUMLGenerator.getVisibilitySymbol` (lines 180-185). -/
def getVisibilitySymbol (modifiers : List String) : String :=
  if modifiers.contains "private" then "-"
  else if modifiers.contains "protected" then "#"
  else if modifiers.contains "public" then "+"
  else "~"

/-- `PlantUMLGenerator.generateField` (lines 159-163). -/
def generateField (field : FieldInfo) : String :=
  let visibility := getVisibilitySymbol field.modifiers
  let isStatic := if field.modifiers.contains "static" then "\x7bstatic\x7d " else ""
  "    " ++ visibility ++ isStatic ++ field.type ++ " " ++ field.name ++ "\n"

/-- `PlantUMLGenerator.generateMethod` (lines 165-178). -/
def generateMethod (method : MethodInfo) : String :=
  if method.name = "" then ""
  else
    let visibility := getVisibilitySymbol method.modifiers
    let isStatic := if method.modifiers.contains "static" then "\x7bstatic\x7d " else ""
    let params := String.intercalate ", "
      ((method.parameters.filter (fun p => p.type ≠ "")).map
        (fun p => jsTrim (p.type ++ " " ++ p.name)))
    "    " ++ visibility ++ isStatic ++ method.returnType ++ " " ++ method.name ++
      "(" ++ params ++ ")\n"

/-- `PlantUMLGenerator.generateClassDefinition` (lines 116-157). -/
def generateClassDefinition (classInfo : ClassInfo) : String :=
  let isSystemClass :=
    match classInfo.packageName with
    | some p => jsStartsWith p "java." || jsStartsWith p "javax."
    | none => false
  let annPart :=
    if isSystemClass then ""
    else String.join (classInfo.annotations.map (fun a => a ++ "\n"))
  let classType :=
    if classInfo.modifiers.contains "abstract" then "abstract class" else "class"
  let implPart :=
    if !isSystemClass &&
        (match classInfo.implements_ with
         | some l => decide (0 < l.length)
         | none => false) then
      " implements " ++ String.intercalate ", " (classInfo.implements_.getD [])
    else ""
  let body :=
    if isSystemClass then "    ..System Class..\n"
    else String.join (classInfo.fields.map generateField) ++
         String.join (classInfo.methods.map generateMethod)
  annPart ++ classType ++ " " ++ classInfo.name ++ implPart ++ " \x7b\n" ++
    body ++ "\x7d\n\n"

/-- The placeholder block for an unresolved ancestor
(lines 55-67 of `generateAllClassDefinitionsRecursive`). -/
def placeholderBlock (ext simpleClassName : String) : String :=
  if jsIncludes ext "java.applet.Applet" || jsEndsWith ext ".Applet" then
    "class " ++ simpleClassName ++ " <<system>> \x7b\n\x7d\n\n"
  else
    "class " ++ simpleClassName ++ " \x7b\n\x7d\n\n"

/-- The interface loop of the definitions pass (lines 70-77), emitting
one `(name, block)` pair per not-yet-processed interface. -/
def interfaceBlocks (className : String) : List String → List String →
    List (String × String) × List String
  | [], processed => ([], processed)
  | i :: rest, processed =>
    let s := getSimpleClassName i
    if processed.contains s then interfaceBlocks className rest processed
    else
      ((s, "interface " ++ s ++ " \x7b\n\x7d\n\n") ::
         (interfaceBlocks className rest (processed ++ [s])).1,
       (interfaceBlocks className rest (processed ++ [s])).2)

/-- Lines 46-50: emit the current class unless already processed. -/
def ownBlock (ci : ClassInfo) (processed : List String) :
    List (String × String) × List String :=
  if processed.contains ci.name then (([] : List (String × String)), processed)
  else ([(ci.name, generateClassDefinition ci)], processed ++ [ci.name])

/-- Lines 55-67: the `else if` placeholder branch for a descriptor with
`extends` set but no `parentClass`. -/
def placeholderPart (ci : ClassInfo) (processed : List String) :
    List (String × String) × List String :=
  match optStr ci.extends_ with
  | some e =>
    let simpleClassName := getSimpleClassName e
    if processed.contains simpleClassName then (([] : List (String × String)), processed)
    else ([(simpleClassName, placeholderBlock e simpleClassName)],
          processed ++ [simpleClassName])
  | none => (([] : List (String × String)), processed)

/-- Lines 70-77: the interface emission of the definitions pass. -/
def ifacePart (ci : ClassInfo) (processed : List String) :
    List (String × String) × List String :=
  match ci.implements_ with
  | some ifs => interfaceBlocks ci.name ifs processed
  | none => (([] : List (String × String)), processed)

/-- `PlantUMLGenerator.generateAllClassDefinitionsRecursive`
(lines 43-80), instrumented to return the emitted definition blocks as
`(defined name, block text)` pairs together with the updated
processed-classes set; the emitted string is the concatenation of the
blocks in order. -/
def defsAux : ClassInfo → List String → List (String × String) × List String
  | ci@(.mk _ _ _ _ _ _ _ _ _ none), processed =>
    ((ownBlock ci processed).1 ++ (placeholderPart ci (ownBlock ci processed).2).1 ++
       (ifacePart ci (placeholderPart ci (ownBlock ci processed).2).2).1,
     (ifacePart ci (placeholderPart ci (ownBlock ci processed).2).2).2)
  | ci@(.mk _ _ _ _ _ _ _ _ _ (some p)), processed =>
    ((ownBlock ci processed).1 ++ (defsAux p (ownBlock ci processed).2).1 ++
       (ifacePart ci (defsAux p (ownBlock ci processed).2).2).1,
     (ifacePart ci (defsAux p (ownBlock ci processed).2).2).2)

/-- The string actually returned by the definitions pass. -/
def generateAllClassDefinitionsRecursive (ci : ClassInfo) (processed : List String) :
    String × List String :=
  let r := defsAux ci processed
  (String.join (r.1.map (fun nb => nb.2)), r.2)

/-- The `extends` edge of one descriptor (lines 86-95): a dashed
hollow-triangle arrow for a library-origin supertype, a solid one
otherwise. -/
def relExtendsPart (ci : ClassInfo) : String :=
  match optStr ci.extends_ with
  | some e =>
    if jsStartsWith e "java." || jsStartsWith e "javax." then
      getSimpleClassName e ++ " <|.. " ++ ci.name ++ "\n"
    else
      getSimpleClassName e ++ " <|-- " ++ ci.name ++ "\n"
  | none => ""

/-- The interface edges of one descriptor (lines 97-101). -/
def relImplPart (ci : ClassInfo) : String :=
  match ci.implements_ with
  | some ifs =>
    String.join (ifs.map (fun i => getSimpleClassName i ++ " <|.. " ++ ci.name ++ "\n"))
  | none => ""

/-- `PlantUMLGenerator.generateAllRelationshipsRecursive` (lines 82-109). -/
def generateAllRelationshipsRecursive : ClassInfo → String
  | ci@(.mk _ _ _ _ _ _ _ _ _ none) =>
    relExtendsPart ci ++ relImplPart ci ++ ""
  | ci@(.mk _ _ _ _ _ _ _ _ _ (some p)) =>
    relExtendsPart ci ++ relImplPart ci ++ generateAllRelationshipsRecursive p

/-- `PlantUMLGenerator.generateClassDiagram` (lines 11-25).  The class
level `processedClasses` set left over from earlier invocations is the
second argument; the method clears it before doing anything else and
the state left for later invocations is returned alongside the diagram
text. -/
def generateClassDiagram (classInfo : ClassInfo) (processedClasses : List String) :
    String × List String :=
  let cleared : List String := []
  let defs := generateAllClassDefinitionsRecursive classInfo cleared
  ("@startuml\n\n" ++ defs.1 ++ generateAllRelationshipsRecursive classInfo ++
    "\n@enduml", defs.2)

end PlantUMLGenerator

/-! ## Shared helper lemmas -/

theorem contains_iff_mem (l : List String) (a : String) : l.contains a = true ↔ a ∈ l := by
  simp

theorem join_nil : String.join ([] : List String) = "" := rfl

theorem join_cons (x : String) (l : List String) :
    String.join (x :: l) = x ++ String.join l := by
  apply String.ext
  simp [String.join_eq, String.data_append]

theorem join_append (a b : List String) :
    String.join (a ++ b) = String.join a ++ String.join b := by
  apply String.ext
  simp [String.join_eq, String.data_append]

theorem append_empty_str (a : String) : a ++ "" = a := by simp

/-! ## The definitions pass emits each name at most once (C4 support)

A stage of the definitions pass maps the processed-set to the emitted
`(name, block)` pairs and the updated set.  A stage is well-behaved
when the updated set is the old set extended by exactly the emitted
names, the emitted names are fresh with respect to the old set, and
they are mutually distinct. -/

def GoodStage (f : List String → List (String × String) × List String) : Prop :=
  ∀ pr, (f pr).2 = pr ++ ((f pr).1.map Prod.fst) ∧
    (∀ n ∈ (f pr).1.map Prod.fst, n ∉ pr) ∧
    ((f pr).1.map Prod.fst).Nodup

theorem GoodStage.comp {f g : List String → List (String × String) × List String}
    (hf : GoodStage f) (hg : GoodStage g) :
    GoodStage (fun pr => ((f pr).1 ++ (g (f pr).2).1, (g (f pr).2).2)) := by
  intro pr
  obtain ⟨hf1, hf2, hf3⟩ := hf pr
  obtain ⟨hg1, hg2, hg3⟩ := hg (f pr).2
  refine ⟨?_, ?_, ?_⟩
  · simp only [List.map_append]
    rw [hg1, hf1, List.append_assoc]
  · intro n hn
    simp only [List.map_append, List.mem_append] at hn
    rcases hn with h | h
    · exact hf2 n h
    · have h2 := hg2 n h
      rw [hf1] at h2
      simp only [List.mem_append, not_or] at h2
      exact h2.1
  · simp only [List.map_append]
    refine List.Nodup.append hf3 hg3 ?_
    intro n hnf hng
    have h2 := hg2 n hng
    rw [hf1] at h2
    exact h2 (List.mem_append_right pr hnf)

theorem GoodStage.congr {f g : List String → List (String × String) × List String}
    (h : ∀ pr, f pr = g pr) (hg : GoodStage g) : GoodStage f := by
  intro pr
  rw [h pr]
  exact hg pr

theorem GoodStage.identity : GoodStage (fun pr => ([], pr)) := by
  intro pr
  exact ⟨by simp, by simp, List.nodup_nil⟩

/-- A stage that emits one fresh name and appends it to the set. -/
theorem GoodStage.single (name : String) (blk : String → String) :
    GoodStage (fun pr =>
      if pr.contains name then ([], pr) else ([(name, blk name)], pr ++ [name])) := by
  intro pr
  dsimp only
  by_cases hc : pr.contains name = true
  · rw [if_pos hc]
    exact ⟨by simp, by simp, List.nodup_nil⟩
  · rw [if_neg hc]
    refine ⟨by simp, ?_, by simp⟩
    intro n hn
    simp only [List.map_cons, List.map_nil, List.mem_singleton] at hn
    subst hn
    intro hmem
    exact hc ((contains_iff_mem pr n).2 hmem)

theorem ownBlock_good (ci : ClassInfo) : GoodStage (PlantUMLGenerator.ownBlock ci) :=
  GoodStage.congr (fun pr => rfl)
    (GoodStage.single ci.name (fun _ => PlantUMLGenerator.generateClassDefinition ci))

theorem placeholderPart_good (ci : ClassInfo) :
    GoodStage (PlantUMLGenerator.placeholderPart ci) := by
  cases h : optStr ci.extends_ with
  | none =>
    refine GoodStage.congr (fun pr => ?_) GoodStage.identity
    rw [PlantUMLGenerator.placeholderPart, h]
  | some e =>
    refine GoodStage.congr (fun pr => ?_)
      (GoodStage.single (PlantUMLGenerator.getSimpleClassName e)
        (fun s => PlantUMLGenerator.placeholderBlock e s))
    rw [PlantUMLGenerator.placeholderPart, h]

theorem interfaceBlocks_good (cn : String) :
    ∀ ifs : List String, GoodStage (PlantUMLGenerator.interfaceBlocks cn ifs) := by
  intro ifs
  induction ifs with
  | nil => exact GoodStage.congr (fun pr => rfl) GoodStage.identity
  | cons i rest ih =>
    intro pr
    rw [PlantUMLGenerator.interfaceBlocks]
    by_cases hc : pr.contains (PlantUMLGenerator.getSimpleClassName i) = true
    · rw [if_pos hc]
      exact ih pr
    · rw [if_neg hc]
      obtain ⟨h1, h2, h3⟩ := ih (pr ++ [PlantUMLGenerator.getSimpleClassName i])
      have hfresh : PlantUMLGenerator.getSimpleClassName i ∉ pr := by
        intro hmem
        exact hc ((contains_iff_mem pr _).2 hmem)
      refine ⟨?_, ?_, ?_⟩
      · simp only [List.map_cons]
        rw [h1, List.append_assoc]
        rfl
      · intro n hn
        simp only [List.map_cons, List.mem_cons] at hn
        rcases hn with h | h
        · subst h; exact hfresh
        · have := h2 n h
          simp only [List.mem_append, not_or] at this
          exact this.1
      · simp only [List.map_cons]
        refine List.Nodup.cons ?_ h3
        intro hmem
        have := h2 _ hmem
        simp at this

theorem ifacePart_good (ci : ClassInfo) : GoodStage (PlantUMLGenerator.ifacePart ci) := by
  cases h : ci.implements_ with
  | none =>
    refine GoodStage.congr (fun pr => ?_) GoodStage.identity
    rw [PlantUMLGenerator.ifacePart, h]
  | some ifs =>
    refine GoodStage.congr (fun pr => ?_) (interfaceBlocks_good ci.name ifs)
    rw [PlantUMLGenerator.ifacePart, h]

theorem defsAux_good : ∀ ci : ClassInfo, GoodStage (PlantUMLGenerator.defsAux ci)
  | .mk n f m md an ex im pk fp none => by
    refine GoodStage.congr (fun pr => ?_)
      ((ownBlock_good (.mk n f m md an ex im pk fp none)).comp
        ((placeholderPart_good (.mk n f m md an ex im pk fp none)).comp
          (ifacePart_good (.mk n f m md an ex im pk fp none))))
    rw [PlantUMLGenerator.defsAux]
    simp [List.append_assoc]
  | .mk n f m md an ex im pk fp (some p) => by
    refine GoodStage.congr (fun pr => ?_)
      ((ownBlock_good (.mk n f m md an ex im pk fp (some p))).comp
        ((defsAux_good p).comp
          (ifacePart_good (.mk n f m md an ex im pk fp (some p)))))
    rw [PlantUMLGenerator.defsAux]
    simp [List.append_assoc]

/-! ## Claim theorems -/

/-- C8: the emitted-name set is cleared at the start of every
`generateClassDiagram` invocation and never persists: the diagram text
is independent of whatever state earlier calls (on any inputs) left in
`processedClasses`, and repeated invocations on the same descriptor
return identical strings. -/
theorem claim8_renderer_state_cleared (ci : ClassInfo) (s1 s2 : List String) :
    (PlantUMLGenerator.generateClassDiagram ci s1).1 =
      (PlantUMLGenerator.generateClassDiagram ci s2).1 ∧
    (PlantUMLGenerator.generateClassDiagram ci
        (PlantUMLGenerator.generateClassDiagram ci s2).2).1 =
      (PlantUMLGenerator.generateClassDiagram ci s1).1 :=
  ⟨rfl, rfl⟩

/-- C9: the visibility symbol of a field or method is determined by its
modifier list: `private` gives `-`, otherwise `protected` gives `#`,
otherwise `public` gives `+`, otherwise `~`; both `generateField` and
`generateMethod` (for a method that is rendered at all, i.e. with a
non-empty name) place that symbol right after the leading indentation. -/
theorem claim9_visibility_mapping (mods : List String) :
    ("private" ∈ mods → PlantUMLGenerator.getVisibilitySymbol mods = "-") ∧
    ("private" ∉ mods → "protected" ∈ mods →
      PlantUMLGenerator.getVisibilitySymbol mods = "#") ∧
    ("private" ∉ mods → "protected" ∉ mods → "public" ∈ mods →
      PlantUMLGenerator.getVisibilitySymbol mods = "+") ∧
    ("private" ∉ mods → "protected" ∉ mods → "public" ∉ mods →
      PlantUMLGenerator.getVisibilitySymbol mods = "~") ∧
    (∀ f : FieldInfo, ∃ rest, PlantUMLGenerator.generateField f =
      "    " ++ PlantUMLGenerator.getVisibilitySymbol f.modifiers ++ rest) ∧
    (∀ m : MethodInfo, m.name ≠ "" → ∃ rest, PlantUMLGenerator.generateMethod m =
      "    " ++ PlantUMLGenerator.getVisibilitySymbol m.modifiers ++ rest) := by
  refine ⟨?_, ?_, ?_, ?_, ?_, ?_⟩
  · intro h
    simp [PlantUMLGenerator.getVisibilitySymbol, h]
  · intro h1 h2
    simp [PlantUMLGenerator.getVisibilitySymbol, h1, h2]
  · intro h1 h2 h3
    simp [PlantUMLGenerator.getVisibilitySymbol, h1, h2, h3]
  · intro h1 h2 h3
    simp [PlantUMLGenerator.getVisibilitySymbol, h1, h2, h3]
  · intro f
    exact ⟨(if f.modifiers.contains "static" then "\x7bstatic\x7d " else "") ++
      f.type ++ " " ++ f.name ++ "\n",
      by simp [PlantUMLGenerator.generateField, String.append_assoc]⟩
  · intro m hm
    refine ⟨(if m.modifiers.contains "static" then "\x7bstatic\x7d " else "") ++
      m.returnType ++ " " ++ m.name ++ "(" ++ String.intercalate ", "
        ((m.parameters.filter (fun p => p.type ≠ "")).map
          (fun p => jsTrim (p.type ++ " " ++ p.name))) ++ ")\n", ?_⟩
    simp [PlantUMLGenerator.generateMethod, hm, String.append_assoc]

/-- Witness for C9: concrete modifier lists exercising each of the four
cases of the mapping and the field/method rendering. -/
theorem claim9_visibility_mapping_witness :
    PlantUMLGenerator.getVisibilitySymbol ["private"] = "-" ∧
    PlantUMLGenerator.getVisibilitySymbol ["protected", "static"] = "#" ∧
    PlantUMLGenerator.getVisibilitySymbol ["public"] = "+" ∧
    PlantUMLGenerator.getVisibilitySymbol ["static"] = "~" ∧
    (∃ rest,
      PlantUMLGenerator.generateMethod
        { name := "run", returnType := "void", parameters := [],
          modifiers := ["public"], annotations := [] } =
      "    " ++ PlantUMLGenerator.getVisibilitySymbol ["public"] ++ rest) :=
  ⟨(claim9_visibility_mapping ["private"]).1 (by decide),
   (claim9_visibility_mapping ["protected", "static"]).2.1 (by decide) (by decide),
   (claim9_visibility_mapping ["public"]).2.2.1 (by decide) (by decide) (by decide),
   (claim9_visibility_mapping ["static"]).2.2.2.1 (by decide) (by decide) (by decide),
   (claim9_visibility_mapping ["public"]).2.2.2.2.2
     { name := "run", returnType := "void", parameters := [],
       modifiers := ["public"], annotations := [] } (by decide)⟩

/-- C10: without a file path there is no project-local sibling lookup:
`findProjectClass` returns `undefined` when no current file path is
given, and `parse` on a descriptor with `extends` set then proceeds
directly to the system-resolver fallback (`resolveAncestors`). -/
theorem claim10_no_project_lookup_without_path (env : Env) (className code : String)
    (pkg : Option String) (fuel : Nat) :
    findProjectClass env className pkg none = none ∧
    parse env (fuel + 1) code none =
      (match env.parseClassO code with
       | .error e => some (.error e)
       | .ok src =>
         match optStr (srcToClassInfo src none).extends_ with
         | none => some (.ok (srcToClassInfo src none))
         | some ext =>
           match resolveAncestors env fuel (srcToClassInfo src none) ext with
           | none => none
           | some ci2 => some (.ok ci2)) :=
  ⟨rfl, rfl⟩

/-- An environment whose disassembly collaborator reports that the
class `demo.Loop` extends itself (an artificially self-referential
ancestor chain); all other collaborators fail. -/
def selfRefEnv : Env where
  parseClassO := fun _ => .error "ParseFailure"
  javap := fun n =>
    if n = "demo.Loop" then some "class demo.Loop extends demo.Loop \x7b" else none
  fileO := fun _ => none

/-- The descriptor the self-referential disassembly parses to. -/
def loopParsed : ClassInfo :=
  JavaCodeParser.parseJavapOutput "class demo.Loop extends demo.Loop \x7b" "demo.Loop"

/-- C1 (failing input): the system-ancestor walk of `parse` (the
`while` loop at lines 163-182) has no depth bound — the bound of 10
lives only in the never-called helper `parseSystemClassWithParents` —
so on a self-referential chain the walk never terminates: for every
amount of fuel, `buildChain` (the walk's step-bounded model) still has
not finished, in particular not within 10 resolution steps as the
claim requires. -/
theorem claim1_walk_diverges_on_self_referential_chain (fuel : Nat) :
    buildChain selfRefEnv fuel "demo.Loop" = none ∧
    loopParsed.extends_ = some "demo.Loop" := by
  refine ⟨?_, by decide⟩
  induction fuel with
  | zero => rfl
  | succ f ih =>
    have hstep : buildChain selfRefEnv (f + 1) "demo.Loop" =
        (match buildChain selfRefEnv f "demo.Loop" with
         | none => none
         | some sub => some (some (loopParsed.withParent sub))) := rfl
    rw [hstep, ih]

/-- C2: the returned promise of `parse` rejects exactly when parsing
the root itself fails; every failure during ancestor resolution
(project-local read, fallback exhaustion, javap errors mid-chain) is
absorbed and still yields a resolved descriptor. -/
theorem claim2_rejects_only_on_root_parse_failure (env : Env) (fuel : Nat)
    (javaCode : String) (filePath : Option String) (r : Except String ClassInfo)
    (h : parse env fuel javaCode filePath = some r) :
    (∀ e, env.parseClassO javaCode = .error e → r = .error e) ∧
    (∀ src, env.parseClassO javaCode = .ok src → ∃ ci, r = .ok ci) := by
  cases fuel with
  | zero => exact absurd h (by simp [parse])
  | succ f =>
    rw [parse] at h
    constructor
    · intro e he
      rw [he] at h
      simpa using h.symm
    · intro src hsrc
      rw [hsrc] at h
      simp only at h
      repeat' split at h
      all_goals try exact ⟨_, by simpa using h.symm⟩
      all_goals exact absurd h (by simp)

/-- Witness for C2: a concrete environment whose root parse fails, and
one whose root parse succeeds with every ancestor resolution failing. -/
theorem claim2_rejects_only_on_root_parse_failure_witness :
    (∀ e, selfRefEnv.parseClassO "code" = .error e →
      (Except.error "ParseFailure" : Except String ClassInfo) = .error e) ∧
    (∀ src, selfRefEnv.parseClassO "code" = .ok src →
      ∃ ci, (Except.error "ParseFailure" : Except String ClassInfo) = .ok ci) :=
  claim2_rejects_only_on_root_parse_failure selfRefEnv 1 "code" none
    (.error "ParseFailure") rfl

/-- In the common-packages loop, a recorded winner is exactly the
candidate `extends` was rewritten to, and implies success. -/
theorem fbLoop_winner_extends (env : Env) (ext simple : String) :
    ∀ (pkgs : List String) (w : String),
      (fbLoop env ext simple pkgs).winner = some w →
      (fbLoop env ext simple pkgs).found = true ∧
        (fbLoop env ext simple pkgs).extends_ = w := by
  intro pkgs
  induction pkgs with
  | nil => intro w hw; simp [fbLoop] at hw
  | cons pkg rest ih =>
    intro w
    by_cases hc : (jsIncludes ext "." && decide (pkg = "")) = true
    · rw [fbLoop, if_pos hc]
      exact ih w
    · rw [fbLoop, if_neg hc]
      cases hj : env.javap (loopCand pkg simple ext) with
      | some out =>
        intro hw
        exact ⟨rfl, (by simpa using hw.symm : w = loopCand pkg simple ext).symm⟩
      | none =>
        intro hw
        exact ih w hw

/-- In the combined `Applet` + direct stages, a recorded winner implies
success and equals the post-stage `extends` value, provided the
package-qualified name is the `extends` name itself (the `packageName`
of a structured-parse root is always absent). -/
theorem directApplet_winner_extends (env : Env) (ext w : String)
    (h : (directStage env ext (appletStage env ext)).winner = some w) :
    (directStage env ext (appletStage env ext)).found = true ∧
      (directStage env ext (appletStage env ext)).extends_ = w := by
  by_cases hA : ext = "Applet"
  · subst hA
    rw [directStage, if_neg (by decide)] at h ⊢
    rw [appletStage, if_pos rfl] at h ⊢
    cases hj : env.javap "java.applet.Applet" with
    | some out => rw [hj] at h; exact ⟨rfl, by simpa using h⟩
    | none => rw [hj] at h; simp at h
  · rw [appletStage, if_neg hA] at h ⊢
    rw [directStage] at h ⊢
    by_cases hdot : jsIncludes ext "." = true
    · rw [if_pos hdot] at h ⊢
      cases hj : env.javap ext with
      | some out => rw [hj] at h; exact ⟨rfl, by simpa using h⟩
      | none => rw [hj] at h; simp at h
    · rw [if_neg hdot] at h ⊢
      simp at h

/-- C3: whenever the system-resolver fallback of `parse` succeeds (it
is invoked with the root's `packageName`, which is always absent in a
structured-parse descriptor), the descriptor's `extends` value after
the fallback equals the winning fully-qualified candidate, across all
success branches: the `Applet` special case, the direct attempt on a
dotted name, and the common-namespace loop. -/
theorem claim3_extends_rewritten_to_winner (env : Env) (ext w : String)
    (h : (sysFallback env ext none).winner = some w) :
    (sysFallback env ext none).found = true ∧
      (sysFallback env ext none).extends_ = w := by
  simp only [sysFallback] at h ⊢
  by_cases hb : (directStage env ext (appletStage env ext)).found = true
  · rw [if_pos hb] at h ⊢
    exact directApplet_winner_extends env ext w h
  · rw [if_neg hb] at h ⊢
    exact fbLoop_winner_extends env ext (simpleNameOf ext) commonPackages w h

/-- The thirteen namespace prefixes enumerated by the claim, in the
claimed order. -/
def claimedPrefixes : List String :=
  ["java.lang.", "java.util.", "java.io.", "java.applet.", "javax.swing.",
   "java.awt.", "java.net.", "java.sql.", "javax.servlet.", "java.math.",
   "java.security.", "java.text.", "java.time."]

/-- The candidate order stated by the claim: the special-cased literal
`Applet` against the applet namespace first, then the name literally as
given, then the simple name behind each common prefix in order. -/
def claimedCandidates (ext : String) : List String :=
  (if ext = "Applet" then ["java.applet.Applet"] else []) ++
    ext :: claimedPrefixes.map (fun p => p ++ simpleNameOf ext)

/-- The prefix of a candidate list that a first-success-wins strategy
actually attempts: everything up to and including the first success. -/
def attemptsUpToSuccess (env : Env) : List String → List String
  | [] => []
  | c :: cs =>
    if (env.javap c).isSome then [c] else c :: attemptsUpToSuccess env cs

theorem claimedPrefixes_ne_empty : ∀ p ∈ claimedPrefixes, p ≠ "" := by decide

theorem commonPackages_eq : commonPackages = "" :: claimedPrefixes := rfl

/-- Over a list of non-empty package prefixes the loop attempts exactly
the candidates up to the first success, and the winner is the first
resolving candidate. -/
theorem fbLoop_attempts_winner (env : Env) (ext simple : String) :
    ∀ pkgs : List String, (∀ p ∈ pkgs, p ≠ "") →
      (fbLoop env ext simple pkgs).attempts =
        attemptsUpToSuccess env (pkgs.map (fun p => p ++ simple)) ∧
      (fbLoop env ext simple pkgs).winner =
        (pkgs.map (fun p => p ++ simple)).find? (fun c => (env.javap c).isSome) := by
  intro pkgs
  induction pkgs with
  | nil => intro _; exact ⟨rfl, rfl⟩
  | cons pkg rest ih =>
    intro hne
    have hpkg : pkg ≠ "" := hne pkg (List.mem_cons_self pkg rest)
    have hrest : ∀ p ∈ rest, p ≠ "" := fun p hp => hne p (List.mem_cons_of_mem pkg hp)
    have hcand : loopCand pkg simple ext = pkg ++ simple := by
      rw [loopCand, if_pos hpkg]
    have hc : ¬(jsIncludes ext "." && decide (pkg = "")) = true := by
      simp [hpkg]
    rw [fbLoop, if_neg hc, List.map_cons]
    cases hj : env.javap (loopCand pkg simple ext) with
    | some out =>
      have hj2 : env.javap (pkg ++ simple) = some out := by rw [← hcand]; exact hj
      refine ⟨?_, ?_⟩
      · show [loopCand pkg simple ext] = _
        rw [hcand, attemptsUpToSuccess, hj2]
        simp
      · show some (loopCand pkg simple ext) = _
        rw [hcand, List.find?_cons_of_pos _ (by rw [hj2]; rfl)]
    | none =>
      have hj2 : env.javap (pkg ++ simple) = none := by rw [← hcand]; exact hj
      obtain ⟨ha, hw⟩ := ih hrest
      refine ⟨?_, ?_⟩
      · show loopCand pkg simple ext :: (fbLoop env ext simple rest).attempts = _
        rw [hcand, ha, attemptsUpToSuccess, hj2]
        simp
      · show (fbLoop env ext simple rest).winner = _
        rw [hw, List.find?_cons_of_neg _ (by rw [hj2]; simp)]

/-- Unfolding of `sysFallback` at an absent `packageName`. -/
theorem sysFallback_none_eq (env : Env) (ext : String) :
    sysFallback env ext none =
      (if (directStage env ext (appletStage env ext)).found = true
       then directStage env ext (appletStage env ext)
       else ⟨(fbLoop env ext (simpleNameOf ext) commonPackages).found,
             (fbLoop env ext (simpleNameOf ext) commonPackages).extends_,
             (fbLoop env ext (simpleNameOf ext) commonPackages).parent,
             (directStage env ext (appletStage env ext)).attempts ++
               (fbLoop env ext (simpleNameOf ext) commonPackages).attempts,
             (fbLoop env ext (simpleNameOf ext) commonPackages).winner⟩) := rfl

theorem appletStage_hit (env : Env) (out : String)
    (hj : env.javap "java.applet.Applet" = some out) :
    appletStage env "Applet" =
      ⟨true, "java.applet.Applet",
       some (JavaCodeParser.parseJavapOutput out "java.applet.Applet"),
       ["java.applet.Applet"], some "java.applet.Applet"⟩ := by
  rw [appletStage, if_pos rfl, hj]

theorem appletStage_miss (env : Env) (hj : env.javap "java.applet.Applet" = none) :
    appletStage env "Applet" = ⟨false, "Applet", none, ["java.applet.Applet"], none⟩ := by
  rw [appletStage, if_pos rfl, hj]

theorem appletStage_skip (env : Env) (ext : String) (h : ext ≠ "Applet") :
    appletStage env ext = ⟨false, ext, none, [], none⟩ := by
  rw [appletStage, if_neg h]

theorem directStage_skip (env : Env) (fc : String) (a : FBOut)
    (h : jsIncludes fc "." = false) : directStage env fc a = a := by
  rw [directStage, h]
  simp

theorem directStage_hit (env : Env) (fc : String) (a : FBOut) (out : String)
    (hdot : jsIncludes fc "." = true) (hj : env.javap fc = some out) :
    directStage env fc a =
      ⟨true, a.extends_, some (JavaCodeParser.parseJavapOutput out fc),
       a.attempts ++ [fc], some fc⟩ := by
  rw [directStage, hdot, if_pos rfl, hj]

theorem directStage_miss (env : Env) (fc : String) (a : FBOut)
    (hdot : jsIncludes fc "." = true) (hj : env.javap fc = none) :
    directStage env fc a =
      ⟨a.found, a.extends_, a.parent, a.attempts ++ [fc], a.winner⟩ := by
  rw [directStage, hdot, if_pos rfl, hj]

theorem loopCand_empty (simple ext : String) : loopCand "" simple ext = ext := by
  rw [loopCand, if_neg (by simp)]

theorem fbLoop_head_skip (env : Env) (ext simple : String) (rest : List String)
    (h : jsIncludes ext "." = true) :
    fbLoop env ext simple ("" :: rest) = fbLoop env ext simple rest := by
  rw [fbLoop, if_pos (by simp [h])]

theorem fbLoop_head_hit (env : Env) (ext simple : String) (rest : List String)
    (out : String) (h : jsIncludes ext "." = false) (hj : env.javap ext = some out) :
    fbLoop env ext simple ("" :: rest) =
      ⟨true, ext, some (JavaCodeParser.parseJavapOutput out ext), [ext], some ext⟩ := by
  rw [fbLoop, if_neg (by simp [h]), loopCand_empty, hj]

theorem fbLoop_head_miss (env : Env) (ext simple : String) (rest : List String)
    (h : jsIncludes ext "." = false) (hj : env.javap ext = none) :
    fbLoop env ext simple ("" :: rest) =
      ⟨(fbLoop env ext simple rest).found, (fbLoop env ext simple rest).extends_,
       (fbLoop env ext simple rest).parent,
       ext :: (fbLoop env ext simple rest).attempts,
       (fbLoop env ext simple rest).winner⟩ := by
  rw [fbLoop, if_neg (by simp [h]), loopCand_empty, hj]

theorem attemptsUpToSuccess_hit (env : Env) (c : String) (cs : List String)
    (out : String) (hj : env.javap c = some out) :
    attemptsUpToSuccess env (c :: cs) = [c] := by
  rw [attemptsUpToSuccess, hj]
  simp

theorem attemptsUpToSuccess_miss (env : Env) (c : String) (cs : List String)
    (hj : env.javap c = none) :
    attemptsUpToSuccess env (c :: cs) = c :: attemptsUpToSuccess env cs := by
  rw [attemptsUpToSuccess, hj]
  simp

theorem find?_javap_hit (env : Env) (c : String) (cs : List String)
    (out : String) (hj : env.javap c = some out) :
    (c :: cs).find? (fun x => (env.javap x).isSome) = some c :=
  List.find?_cons_of_pos _ (by rw [hj]; rfl)

theorem find?_javap_miss (env : Env) (c : String) (cs : List String)
    (hj : env.javap c = none) :
    (c :: cs).find? (fun x => (env.javap x).isSome) =
      cs.find? (fun x => (env.javap x).isSome) :=
  List.find?_cons_of_neg _ (by rw [hj]; simp)

theorem claimedCandidates_applet :
    claimedCandidates "Applet" =
      "java.applet.Applet" :: "Applet" ::
        claimedPrefixes.map (fun p => p ++ simpleNameOf "Applet") := rfl

theorem claimedCandidates_other (ext : String) (h : ext ≠ "Applet") :
    claimedCandidates ext =
      ext :: claimedPrefixes.map (fun p => p ++ simpleNameOf ext) := by
  rw [claimedCandidates, if_neg h]
  rfl

/-- C5: the system-resolver fallback (invoked from `parse` with the
root's always-absent `packageName`) attempts candidates in exactly the
claimed order — the `Applet` special case against the applet namespace,
then the name literally as given, then the simple name behind each of
the thirteen common prefixes in order — and the first candidate that
resolves wins, with no later candidate attempted.  The last conjunct
records that a structured-parse root indeed carries no package. -/
theorem claim5_fallback_candidate_order (env : Env) (ext : String) :
    (sysFallback env ext none).attempts = attemptsUpToSuccess env (claimedCandidates ext) ∧
    (sysFallback env ext none).winner =
      (claimedCandidates ext).find? (fun c => (env.javap c).isSome) ∧
    ∀ (s : SrcClass) (fp : Option String), (srcToClassInfo s fp).packageName = none := by
  obtain ⟨baseA, baseW⟩ := fbLoop_attempts_winner env ext (simpleNameOf ext)
    claimedPrefixes claimedPrefixes_ne_empty
  rw [sysFallback_none_eq]
  by_cases hA : ext = "Applet"
  · subst hA
    have hd : jsIncludes "Applet" "." = false := by decide
    rw [claimedCandidates_applet]
    cases hj1 : env.javap "java.applet.Applet" with
    | some out =>
      rw [appletStage_hit env out hj1, directStage_skip env _ _ hd, if_pos rfl,
        attemptsUpToSuccess_hit env _ _ out hj1, find?_javap_hit env _ _ out hj1]
      exact ⟨rfl, rfl, fun s fp => rfl⟩
    | none =>
      rw [appletStage_miss env hj1, directStage_skip env _ _ hd,
        if_neg (by simp), commonPackages_eq,
        attemptsUpToSuccess_miss env _ _ hj1, find?_javap_miss env _ _ hj1]
      cases hj2 : env.javap "Applet" with
      | some out2 =>
        rw [fbLoop_head_hit env _ _ _ out2 hd hj2,
          attemptsUpToSuccess_hit env _ _ out2 hj2, find?_javap_hit env _ _ out2 hj2]
        exact ⟨rfl, rfl, fun s fp => rfl⟩
      | none =>
        rw [fbLoop_head_miss env _ _ _ hd hj2,
          attemptsUpToSuccess_miss env _ _ hj2, find?_javap_miss env _ _ hj2]
        exact ⟨by rw [baseA]; try rfl, by rw [baseW]; try rfl, fun s fp => rfl⟩
  · rw [claimedCandidates_other ext hA, appletStage_skip env ext hA]
    cases hdot : jsIncludes ext "." with
    | true =>
      cases hj1 : env.javap ext with
      | some out =>
        rw [directStage_hit env ext _ out hdot hj1, if_pos rfl,
          attemptsUpToSuccess_hit env _ _ out hj1, find?_javap_hit env _ _ out hj1]
        exact ⟨rfl, rfl, fun s fp => rfl⟩
      | none =>
        rw [directStage_miss env ext _ hdot hj1, if_neg (by simp), commonPackages_eq,
          fbLoop_head_skip env _ _ _ hdot,
          attemptsUpToSuccess_miss env _ _ hj1, find?_javap_miss env _ _ hj1]
        exact ⟨by rw [baseA]; try rfl, by rw [baseW]; try rfl, fun s fp => rfl⟩
    | false =>
      rw [directStage_skip env ext _ hdot, if_neg (by simp), commonPackages_eq]
      cases hj1 : env.javap ext with
      | some out =>
        rw [fbLoop_head_hit env _ _ _ out hdot hj1,
          attemptsUpToSuccess_hit env _ _ out hj1, find?_javap_hit env _ _ out hj1]
        exact ⟨rfl, rfl, fun s fp => rfl⟩
      | none =>
        rw [fbLoop_head_miss env _ _ _ hdot hj1,
          attemptsUpToSuccess_miss env _ _ hj1, find?_javap_miss env _ _ hj1]
        exact ⟨by rw [baseA]; try rfl, by rw [baseW]; try rfl, fun s fp => rfl⟩

/-- An environment in which only `java.lang.B` disassembles. -/
def langEnv : Env where
  parseClassO := fun _ => .error "ParseFailure"
  javap := fun n =>
    if n = "java.lang.B" then some "public class java.lang.B \x7b" else none
  fileO := fun _ => none

/-- Witness for C3: resolving `extends B` against `langEnv` wins with
`java.lang.B` and `extends` is rewritten to it. -/
theorem claim3_extends_rewritten_to_winner_witness :
    (sysFallback langEnv "B" none).winner = some "java.lang.B" ∧
    ((sysFallback langEnv "B" none).found = true ∧
      (sysFallback langEnv "B" none).extends_ = "java.lang.B") :=
  ⟨by decide, claim3_extends_rewritten_to_winner langEnv "B" "java.lang.B" (by decide)⟩

/-- C6 (failing input): the javap member line
`public Greeter(java.lang.String);` is a constructor line — the method
name `Greeter` equals the simple class name of the packageless class
`Greeter` — yet `parseJavapMethod` does not produce an empty return
type: the dotted parameter type defeats `extractClassName`, the line is
parsed as a regular method, and the access modifier `public` becomes
the return type while the modifier list comes out empty. -/
theorem claim6_constructor_line_misparsed :
    JavaCodeParser.parseJavapMethod "public Greeter(java.lang.String);" =
      { name := "Greeter", returnType := "public",
        parameters := [{ name := "", type := "java.lang.String" }],
        modifiers := [], annotations := [] } ∧
    (JavaCodeParser.parseJavapMethod "public Greeter(java.lang.String);").returnType ≠ ""
    := by
  constructor
  · decide
  · decide

/-- C4: the definitions pass of `generateClassDiagram` emits at most
one definition block per name: the names of the emitted blocks (class
headers, unresolved-ancestor placeholders, and interface blocks —
including an interface shared by two chain members) are mutually
distinct, and the pass's string output is exactly the concatenation of
those uniquely-named blocks. -/
theorem claim4_definitions_pass_no_duplicates (ci : ClassInfo) :
    ((PlantUMLGenerator.defsAux ci []).1.map Prod.fst).Nodup ∧
    PlantUMLGenerator.generateAllClassDefinitionsRecursive ci [] =
      (String.join ((PlantUMLGenerator.defsAux ci []).1.map Prod.snd),
       (PlantUMLGenerator.defsAux ci []).2) :=
  ⟨(defsAux_good ci []).2.2, rfl⟩

/-- The descriptor chain walked by the relationships pass: the
descriptor itself followed by its `parentClass` chain. -/
def chainList : ClassInfo → List ClassInfo
  | ci@(.mk _ _ _ _ _ _ _ _ _ none) => [ci]
  | ci@(.mk _ _ _ _ _ _ _ _ _ (some p)) => ci :: chainList p

/-- The edge lines one descriptor contributes, as the spec states them:
one inheritance edge per set `extends` — dashed hollow-triangle for a
library-origin (`java.`/`javax.`-prefixed) supertype, solid otherwise —
and one dashed hollow-triangle edge per implemented interface. -/
def descEdges (ci : ClassInfo) : List String :=
  (match optStr ci.extends_ with
   | some e =>
     if jsStartsWith e "java." || jsStartsWith e "javax." then
       [PlantUMLGenerator.getSimpleClassName e ++ " <|.. " ++ ci.name ++ "\n"]
     else
       [PlantUMLGenerator.getSimpleClassName e ++ " <|-- " ++ ci.name ++ "\n"]
   | none => []) ++
  (match ci.implements_ with
   | some ifs =>
     ifs.map (fun i => PlantUMLGenerator.getSimpleClassName i ++ " <|.. " ++ ci.name ++ "\n")
   | none => [])

theorem join_descEdges (ci : ClassInfo) :
    String.join (descEdges ci) =
      PlantUMLGenerator.relExtendsPart ci ++ PlantUMLGenerator.relImplPart ci := by
  rw [descEdges, PlantUMLGenerator.relExtendsPart, PlantUMLGenerator.relImplPart,
    join_append]
  cases h : optStr ci.extends_ with
  | none =>
    cases hi : ci.implements_ with
    | none => rfl
    | some ifs => apply String.ext; simp [join_nil]
  | some e =>
    by_cases hd : (jsStartsWith e "java." || jsStartsWith e "javax.") = true
    · cases hi : ci.implements_ with
      | none => simp [hd, join_cons, join_nil]
      | some ifs => simp [hd, join_cons, join_nil]
    · cases hi : ci.implements_ with
      | none => simp [hd, join_cons, join_nil]
      | some ifs => simp [hd, join_cons, join_nil]

theorem rel_flatten : ∀ ci : ClassInfo,
    PlantUMLGenerator.generateAllRelationshipsRecursive ci =
      String.join ((chainList ci).flatMap descEdges)
  | .mk n f m md an ex im pk fp none => by
    rw [PlantUMLGenerator.generateAllRelationshipsRecursive, chainList]
    rw [List.flatMap_cons, List.flatMap_nil, List.append_nil, join_descEdges,
      append_empty_str]
  | .mk n f m md an ex im pk fp (some p) => by
    rw [PlantUMLGenerator.generateAllRelationshipsRecursive, chainList]
    rw [List.flatMap_cons, join_append, join_descEdges,
      rel_flatten p, String.append_assoc]

/-- The resolved two-class example of the spec: `A extends B` with `B`
found project-locally (its name carries no library prefix). -/
def exB : ClassInfo := .mk "B" [] [] [] [] none (some []) none none none

def exA : ClassInfo :=
  .mk "A" [] [] [] [] (some "B") (some []) none none (some exB)

/-- C7: the relationships pass emits, for every descriptor of the
chain, exactly its spec-mandated edges in chain order: the pass's
output is the concatenation of `descEdges` over the chain, and on the
concrete `A extends B` example (B project-local) the whole relationship
output is exactly the single solid-arrow line `B <|-- A`. -/
theorem claim7_relationship_edges (ci : ClassInfo) :
    PlantUMLGenerator.generateAllRelationshipsRecursive ci =
      String.join ((chainList ci).flatMap descEdges) ∧
    (chainList exA).flatMap descEdges = ["B <|-- A\n"] ∧
    PlantUMLGenerator.generateAllRelationshipsRecursive exA = "B <|-- A\n" :=
  ⟨rel_flatten ci, by decide, by decide⟩

end JavaDiagram
